import Mathlib

/-!
Verification development for the `daily-ai-news-brief` ingestion pipeline.

The definitions below are a shallow embedding of the Python sources:
* `src/utils_logic.py` — `process_news_data` (the merge engine, the recency
  filter, the reprocess heuristic, and the short-content short-circuit) and
  the response handling of `process_article_content`;
* `src/app.py` — one iteration of the `run_scheduler` background loop.

Modelling conventions:
* wall-clock instants (`time.mktime` seconds, `datetime.isoformat` strings)
  are rationals — the ISO strings produced by the code are an injective,
  monotone image of the underlying instant, so comparison and equality of
  the strings agree with comparison and equality of the rationals;
* the `"%Y-%m-%d"` date string is modelled as the (floor) day index of the
  instant;
* Python dicts keyed by `link` are association lists of `Item`s in insertion
  order: updating an existing key rewrites the value in place, a fresh key is
  appended at the end, and `list(map.values())` is the list itself;
* `str(uuid.uuid4())` is modelled by a fresh-id counter threaded through the
  run state;
* the OpenAI call of `process_article_content` is a black-box parameter
  `oracle : String → String → Option (String × String)`; `none` is the
  "irrelevant" outcome (`(None, None)` in Python), `some (t, s)` is any
  returned pair of title and summary (including the in-band error strings).
-/

attribute [local semireducible] Rat.add Rat.sub Rat.mul Rat.inv

/-- A persisted article, one element of `news_data.json`. -/
structure Item where
  id : ℕ
  date : ℤ
  timestamp : ℚ
  title : String
  source : String
  summary : String
  link : String
  deriving DecidableEq, Repr

/-- One raw feed entry as consumed by `process_news_data`: `link` is
`entry.get('link','')`, `title` is `entry.get('title','No Title')`,
`published` is the resolved `published_parsed or updated_parsed` instant
(seconds), and `cleanText` is the result of `clean_html` on the selected
body field (the BeautifulSoup normalisation itself is outside the model). -/
structure Entry where
  link : String
  title : String
  published : Option ℚ
  cleanText : String
  sourceUrl : String
  deriving DecidableEq, Repr

/-- One RSS feed: its URL and the entries `fetch_rss_feed` yields for it. -/
structure Feed where
  url : String
  entries : List Entry
  deriving DecidableEq, Repr

/-- Python `c.isascii()` for a single character: code point below 128. -/
def charIsAscii (c : Char) : Bool := decide (c.toNat ≤ 127)

/-- `not s.strip()` in Python: every character of `s` is whitespace
(vacuously true for the empty string). -/
def isAllWhitespace (s : String) : Bool := s.toList.all fun c => c.isWhitespace

/-- First character of `s` is ASCII (`curr_summary[0].isascii()`), false for
the empty string. -/
def firstCharAscii (s : String) : Bool :=
  match s.toList with
  | [] => false
  | c :: _ => charIsAscii c

/-- `pat in s` on character lists: some suffix of `s` starts with `pat`. -/
def containsSub (pat : List Char) : List Char → Bool
  | [] => pat.isEmpty
  | c :: t => pat.isPrefixOf (c :: t) || containsSub pat t

/-- Python substring containment `pat in s`. -/
def strContains (s pat : String) : Bool := containsSub pat.toList s.toList

/-- Python `s.startswith(pat)`. -/
def startsWithStr (s pat : String) : Bool := pat.toList.isPrefixOf s.toList

/-- The reprocess heuristic of `process_news_data` (utils_logic.py lines
203–209) applied to the stored summary of an existing article:

    is_english_summary = (curr_summary and len(curr_summary) > 0
                          and curr_summary[0].isascii()
                          and "Error" not in curr_summary)
    if not curr_summary or not curr_summary.strip()
       or curr_summary.startswith("Error")
       or "Error using AI model" in curr_summary
       or is_english_summary: should_process = True
-/
def reprocessNeeded (s : String) : Bool :=
  let isEnglishSummary :=
    decide (s ≠ "") && firstCharAscii s && !strContains s "Error"
  decide (s = "") || isAllWhitespace s || startsWithStr s "Error" ||
    strContains s "Error using AI model" || isEnglishSummary

/-- The selection predicate claimed by the spec for the reprocess heuristic:
summary empty/whitespace-only, or beginning with an ASCII *letter*, or
containing the literal marker `"Error"` anywhere. -/
def reprocessClaimed (s : String) : Bool :=
  isAllWhitespace s ||
    (match s.toList with
     | [] => false
     | c :: _ => c.isAlpha) ||
    strContains s "Error"

/-- The recency/link filter of the first pass of `process_news_data`
(utils_logic.py lines 149–160): entries without a link are dropped; an entry
with a published-or-updated instant is dropped when
`(now_ts - published_ts) / (24*3600) > days_limit`; an entry with no such
instant passes through. -/
def keepEntry (now daysLimit : ℚ) (e : Entry) : Bool :=
  decide (e.link ≠ "") &&
    match e.published with
    | some p => !decide ((now - p) / (24 * 3600) > daysLimit)
    | none => true

/-- First pass of `process_news_data`: per feed, keep the entries accepted by
`keepEntry` and record the originating feed URL on each
(`entry['source_url'] = url`). -/
def filterEntries (now daysLimit : ℚ) (feeds : List Feed) : List Entry :=
  feeds.flatMap fun f =>
    (f.entries.filter (keepEntry now daysLimit)).map fun e =>
      { e with sourceUrl := f.url }

/-- The black-box summarize/translate call: given the original title and the
(length-capped) clean text, `none` models the `(None, None)` "irrelevant"
return of `process_article_content`, `some (t, s)` models any other returned
title/summary pair (successful translation or an in-band error string). -/
def Oracle : Type := String → String → Option (String × String)

/-- The processing step for a selected entry (utils_logic.py lines 215–232):
if the clean text is shorter than 20 characters, skip the AI call and use the
fixed placeholder; otherwise call the oracle on the first 4000 characters.
`none` propagates the irrelevant outcome (which the caller turns into
`continue`). -/
def runProcess (oracle : Oracle) (e : Entry) : Option (String × String) :=
  if e.cleanText.length < 20 then some (e.title, "Content too short to summarize.")
  else oracle e.title (e.cleanText.take 4000)

/-- `item_date_str` / `item_timestamp_iso` (utils_logic.py lines 238–246):
the feed-provided publication instant when present, else the ingestion
wall-clock instant; the date is the day index of the same instant. -/
def entryStamp (now : ℚ) (e : Entry) : ℤ × ℚ :=
  match e.published with
  | some p => (Rat.floor (p / 86400), p)
  | none => (Rat.floor (now / 86400), now)

/-- `list(existing_items_map.values())` order of links. -/
def links (m : List Item) : List String := m.map Item.link

/-- `existing_items_map[link]` lookup. -/
def findItem (m : List Item) (l : String) : Option Item :=
  m.find? fun x => decide (x.link = l)

/-- In-place overwrite of title and summary of the article stored under
`l` (utils_logic.py lines 272–273). -/
def updContent (m : List Item) (l t s : String) : List Item :=
  m.map fun x => if x.link = l then { x with title := t, summary := s } else x

/-- In-place overwrite of date and timestamp of the article stored under
`l` (utils_logic.py lines 277–278). -/
def updStamp (m : List Item) (l : String) (d : ℤ) (ts : ℚ) : List Item :=
  m.map fun x => if x.link = l then { x with date := d, timestamp := ts } else x

/-- `existing_items_map[link] = item` on an association list with Python
dict semantics: overwrite in place when the key exists, append otherwise. -/
def mapInsert (m : List Item) (it : Item) : List Item :=
  if m.any (fun x => decide (x.link = it.link)) then
    m.map fun x => if x.link = it.link then it else x
  else m ++ [it]

/-- `{item['link']: item for item in existing_data}` with insertion order. -/
def buildMap (existing : List Item) : List Item := existing.foldl mapInsert []

/-- The working state of one `process_news_data` run: the link-keyed map (as
an insertion-ordered list), the two change counters, and the fresh-id
counter modelling `uuid.uuid4()`. -/
structure RunState where
  items : List Item
  newCount : ℕ
  updCount : ℕ
  nextId : ℕ
  deriving DecidableEq, Repr

/-- The body of the second-pass loop of `process_news_data` (utils_logic.py
lines 170–284) for one valid entry:

* unseen link → `should_process`; an irrelevant oracle outcome `continue`s
  (nothing stored, no counter moves), otherwise a fresh article is appended
  and `new_items_count` incremented;
* known link with a summary matching the reprocess heuristic → reprocess; an
  irrelevant outcome `continue`s (note: this skips the timestamp refresh
  below as well), otherwise title/summary are overwritten, then date and
  timestamp, and `updated_count` is incremented unconditionally;
* known link otherwise → only date and timestamp are overwritten, and
  `updated_count` is incremented exactly when the timestamp changed. -/
def processEntry (oracle : Oracle) (now : ℚ) (st : RunState) (e : Entry) :
    RunState :=
  match findItem st.items e.link with
  | none =>
    match runProcess oracle e with
    | none => st
    | some (aiTitle, aiSummary) =>
      let dts := entryStamp now e
      let newItem : Item :=
        { id := st.nextId, date := dts.1, timestamp := dts.2, title := aiTitle,
          source := e.sourceUrl, summary := aiSummary, link := e.link }
      { items := st.items ++ [newItem], newCount := st.newCount + 1,
        updCount := st.updCount, nextId := st.nextId + 1 }
  | some cur =>
    if reprocessNeeded cur.summary then
      match runProcess oracle e with
      | none => st
      | some (aiTitle, aiSummary) =>
        let dts := entryStamp now e
        { st with
          items := updStamp (updContent st.items e.link aiTitle aiSummary)
                     e.link dts.1 dts.2,
          updCount := st.updCount + 1 }
    else
      let dts := entryStamp now e
      { st with
        items := updStamp st.items e.link dts.1 dts.2,
        updCount := if cur.timestamp ≠ dts.2 then st.updCount + 1
                    else st.updCount }

/-- The whole merge engine up to (but excluding) the final sort: build the
link map from the persisted collection, run the two-pass loop over all
feeds, and return the final state. -/
def runEngine (oracle : Oracle) (feeds : List Feed) (existing : List Item)
    (daysLimit now : ℚ) (startId : ℕ) : RunState :=
  (filterEntries now daysLimit feeds).foldl (processEntry oracle now)
    ⟨buildMap existing, 0, 0, startId⟩

/-- `process_news_data` (utils_logic.py lines 120–299): the reconciled
collection, sorted by timestamp descending, together with
`total_changes = new_items_count + updated_count`. -/
def process_news_data (oracle : Oracle) (feeds : List Feed)
    (existing : List Item) (daysLimit now : ℚ) (startId : ℕ) :
    List Item × ℕ :=
  let st := runEngine oracle feeds existing daysLimit now startId
  (st.items.mergeSort (fun a b => decide (b.timestamp ≤ a.timestamp)),
    st.newCount + st.updCount)

/-- The JSON object fields `process_article_content` reads from a parsed
model response: `is_relevant`, `title`, `summary`. A `none` field models an
absent key (so `data.get(key, default)` falls back). -/
structure JsonObj where
  isRelevant : Option Bool
  title : Option String
  summary : Option String
  deriving DecidableEq, Repr

/-- The response handling of `process_article_content` (utils_logic.py lines
103–114), starting from the content string that reaches the `if content:`
check. `parse` models `json.loads` restricted to the three fields read:
`none` is a `json.JSONDecodeError`. Returns the `(ai_title, ai_summary)`
pair; `(none, none)` is the irrelevant outcome. -/
def contentToResult (origTitle content : String)
    (parse : String → Option JsonObj) : Option String × Option String :=
  if content ≠ "" then
    match parse content with
    | some data =>
      if data.isRelevant = some false then (none, none)
      else (some (data.title.getD origTitle), some (data.summary.getD ""))
    | none => (some origTitle, some content)
  else (some origTitle, some "Error: Empty summary returned by AI.")

/-- The run state persisted in `stats.json`, restricted to the field the
scheduler reads and writes (`last_auto_scrape`, an instant). -/
structure Stats where
  lastAutoScrape : ℚ
  deriving DecidableEq, Repr

/-- The `status` label written to the persistent log document. -/
inductive LogStatus
  | running
  | idle
  | error
  deriving DecidableEq, Repr

/-- One iteration of the `run_scheduler` background loop (app.py lines
77–167), restricted to its effect on the persisted run state. Inputs: the
re-read configuration (`enable_auto_scrape`, `update_interval_minutes * 60`),
the persisted stats, the instant of the due check (`nowCheck`) and of run
completion (`nowEnd`), and the outcome of the pipeline run (`Except.error`
models an exception caught by the inner `try`). Returns the persisted stats
after the iteration and the status written by the final log flush (`none`
when no run was started). On success the code sets
`stats["last_auto_scrape"] = datetime.datetime.now().isoformat()` and saves
stats, then flushes status `idle`; in the `except` branch it only flushes
status `error` — stats are not saved. -/
def schedulerStep (enableAuto : Bool) (intervalSec : ℚ) (stats : Stats)
    (nowCheck nowEnd : ℚ) (pipeline : Except String (List Item × ℕ)) :
    Stats × Option LogStatus :=
  if enableAuto && decide (nowCheck - stats.lastAutoScrape > intervalSec) then
    match pipeline with
    | .ok _ => ({ stats with lastAutoScrape := nowEnd }, some .idle)
    | .error _ => (stats, some .error)
  else (stats, none)

/-- An oracle that classifies every article as irrelevant. -/
def nullOracle : Oracle := fun _ _ => none

/-- An oracle that returns a fixed processed pair for every article. -/
def constOracle : Oracle := fun _ _ => some ("제목", "요약")

/-- The reprocess heuristic restated as the code actually implements it:
whitespace-only (or empty) summary, or an `"Error"` prefix, or the marker
`"Error using AI model"` anywhere, or an ASCII first character (of any kind,
not only letters) together with no occurrence of `"Error"` at all. -/
def reprocessAmended (s : String) : Bool :=
  isAllWhitespace s || startsWithStr s "Error" ||
    strContains s "Error using AI model" ||
    (firstCharAscii s && !strContains s "Error")

/-- A persisted article whose stored summary starts with an ASCII letter (so
the reprocess heuristic selects it) and whose stored timestamp is `5`. -/
def englishArticle : Item := ⟨7, 0, 5, "Old", "s", "English text", "L"⟩

/-- A fresh sighting of `englishArticle`'s link with feed-provided
publication instant `0` and a body long enough to reach the oracle. -/
def longEntry : Entry :=
  ⟨"L", "T", some 0, "This text is definitely long enough.", ""⟩

/-- A single feed carrying only `longEntry`. -/
def longFeeds : List Feed := [⟨"u", [longEntry]⟩]

/-- An entry whose clean text is shorter than 20 characters, published at
instant `10`. -/
def shortEntry : Entry := ⟨"L", "T", some 10, "tiny", ""⟩

/-- A single feed carrying only `shortEntry`. -/
def shortFeeds : List Feed := [⟨"u", [shortEntry]⟩]

/-- The article the first run of `process_news_data` produces from
`shortEntry`. -/
def shortItem : Item :=
  ⟨0, 0, 10, "T", "u", "Content too short to summarize.", "L"⟩

/-! ### Basic facts about the link-keyed map -/

lemma links_map_eq (m : List Item) (f : Item → Item)
    (h : ∀ x, (f x).link = x.link) : links (m.map f) = links m := by
  unfold links
  rw [List.map_map]
  exact List.map_congr_left fun x _ => h x

lemma links_updContent (m : List Item) (l t s : String) :
    links (updContent m l t s) = links m := by
  apply links_map_eq
  intro x
  by_cases hx : x.link = l <;> simp [hx]

lemma links_updStamp (m : List Item) (l : String) (d : ℤ) (ts : ℚ) :
    links (updStamp m l d ts) = links m := by
  apply links_map_eq
  intro x
  by_cases hx : x.link = l <;> simp [hx]

lemma mem_links_iff (m : List Item) (l : String) :
    l ∈ links m ↔ ∃ x ∈ m, x.link = l := by
  simp [links, List.mem_map, eq_comm]

lemma findItem_eq_none_iff (m : List Item) (l : String) :
    findItem m l = none ↔ l ∉ links m := by
  simp [findItem, List.find?_eq_none, mem_links_iff]

lemma findItem_some_mem_links (m : List Item) (l : String) (cur : Item)
    (h : findItem m l = some cur) : l ∈ links m := by
  have h1 := List.mem_of_find?_eq_some h
  have h2 := List.find?_some h
  simp only [decide_eq_true_eq] at h2
  exact (mem_links_iff m l).mpr ⟨cur, h1, h2⟩

/-- Complete per-branch characterization of one loop iteration, as far as the
link list and the new-items counter are concerned. -/
lemma processEntry_cases (oracle : Oracle) (now : ℚ) (st : RunState)
    (e : Entry) :
    (runProcess oracle e = none ∧ processEntry oracle now st e = st) ∨
    (findItem st.items e.link = none ∧ (∃ p, runProcess oracle e = some p) ∧
      ∃ it : Item, it.link = e.link ∧
        (processEntry oracle now st e).items = st.items ++ [it] ∧
        (processEntry oracle now st e).newCount = st.newCount + 1) ∨
    ((∃ cur, findItem st.items e.link = some cur) ∧
      links (processEntry oracle now st e).items = links st.items ∧
      (processEntry oracle now st e).newCount = st.newCount) := by
  cases hf : findItem st.items e.link with
  | none =>
    cases hr : runProcess oracle e with
    | none => exact Or.inl ⟨rfl, by simp [processEntry, hf, hr]⟩
    | some p =>
      obtain ⟨t, s⟩ := p
      refine Or.inr (Or.inl ⟨rfl, ⟨(t, s), rfl⟩,
        ⟨{ id := st.nextId, date := (entryStamp now e).1,
           timestamp := (entryStamp now e).2, title := t,
           source := e.sourceUrl, summary := s, link := e.link },
         rfl, ?_, ?_⟩⟩) <;> simp [processEntry, hf, hr]
  | some cur =>
    by_cases hb : reprocessNeeded cur.summary = true
    · cases hr : runProcess oracle e with
      | none => exact Or.inl ⟨rfl, by simp [processEntry, hf, hr, hb]⟩
      | some p =>
        obtain ⟨t, s⟩ := p
        refine Or.inr (Or.inr ⟨⟨cur, rfl⟩, ?_, ?_⟩) <;>
          simp [processEntry, hf, hr, hb, links_updStamp, links_updContent]
    · refine Or.inr (Or.inr ⟨⟨cur, rfl⟩, ?_, ?_⟩) <;>
        simp [processEntry, hf, hb, links_updStamp]

lemma mem_links_processEntry (oracle : Oracle) (now : ℚ) (st : RunState)
    (e : Entry) (l : String) (hl : l ∈ links st.items) :
    l ∈ links (processEntry oracle now st e).items := by
  rcases processEntry_cases oracle now st e with ⟨-, h⟩ | ⟨-, -, it, -, h, -⟩ |
    ⟨-, h, -⟩
  · rw [h]; exact hl
  · rw [h]
    unfold links at hl ⊢
    rw [List.map_append]
    exact List.mem_append_left _ hl
  · rw [h]; exact hl

lemma newCount_processEntry_of_resolved (oracle : Oracle) (now : ℚ)
    (st : RunState) (e : Entry)
    (h : e.link ∈ links st.items ∨ runProcess oracle e = none) :
    (processEntry oracle now st e).newCount = st.newCount := by
  rcases processEntry_cases oracle now st e with ⟨-, hs⟩ |
    ⟨hf, ⟨p, hp⟩, -, -, -, -⟩ | ⟨-, -, hs⟩
  · rw [hs]
  · rcases h with hl | hr
    · exact absurd hl ((findItem_eq_none_iff st.items e.link).mp hf)
    · rw [hp] at hr; exact absurd hr (by simp)
  · exact hs

lemma mem_links_foldl (oracle : Oracle) (now : ℚ) (es : List Entry)
    (st : RunState) (l : String) (hl : l ∈ links st.items) :
    l ∈ links ((es.foldl (processEntry oracle now) st).items) := by
  induction es generalizing st with
  | nil => exact hl
  | cons a es ih =>
    rw [List.foldl_cons]
    exact ih (processEntry oracle now st a)
      (mem_links_processEntry oracle now st a l hl)

/-- After one pass of the loop, every processed entry either left its link in
the map or was resolved as irrelevant by the (deterministic) oracle. -/
lemma coverage_foldl (oracle : Oracle) (now : ℚ) (es : List Entry)
    (st : RunState) :
    ∀ e ∈ es, e.link ∈ links ((es.foldl (processEntry oracle now) st).items) ∨
      runProcess oracle e = none := by
  induction es generalizing st with
  | nil => simp
  | cons a es ih =>
    intro e he
    rcases List.mem_cons.mp he with rfl | he'
    · rw [List.foldl_cons]
      rcases processEntry_cases oracle now st e with ⟨hr, -⟩ |
        ⟨-, -, it, hit, hitems, -⟩ | ⟨⟨cur, hf⟩, -, -⟩
      · exact Or.inr hr
      · left
        apply mem_links_foldl
        rw [hitems]
        unfold links
        rw [List.map_append]
        apply List.mem_append_right
        simp [hit]
      · left
        apply mem_links_foldl
        exact mem_links_processEntry oracle now st e e.link
          (findItem_some_mem_links st.items e.link cur hf)
    · rw [List.foldl_cons]
      exact ih (processEntry oracle now st a) e he'

lemma newCount_foldl_of_resolved (oracle : Oracle) (now : ℚ)
    (es : List Entry) (st : RunState)
    (h : ∀ e ∈ es, e.link ∈ links st.items ∨ runProcess oracle e = none) :
    (es.foldl (processEntry oracle now) st).newCount = st.newCount := by
  induction es generalizing st with
  | nil => rfl
  | cons a es ih =>
    rw [List.foldl_cons]
    rw [ih (processEntry oracle now st a) ?_]
    · exact newCount_processEntry_of_resolved oracle now st a
        (h a (List.mem_cons_self a es))
    · intro e he
      rcases h e (List.mem_cons_of_mem a he) with hl | hr
      · exact Or.inl (mem_links_processEntry oracle now st a e.link hl)
      · exact Or.inr hr

/-! ### Facts about `mapInsert` and `buildMap` -/

lemma mem_links_mapInsert_old (m : List Item) (it : Item) (l : String)
    (hl : l ∈ links m) : l ∈ links (mapInsert m it) := by
  unfold mapInsert
  by_cases hp : m.any (fun x => decide (x.link = it.link)) = true
  · rw [if_pos hp]
    rw [links_map_eq]
    · exact hl
    · intro x
      by_cases hx : x.link = it.link <;> simp [hx]
  · rw [if_neg hp]
    unfold links at hl ⊢
    rw [List.map_append]
    exact List.mem_append_left _ hl

lemma mem_links_mapInsert_self (m : List Item) (it : Item) :
    it.link ∈ links (mapInsert m it) := by
  unfold mapInsert
  by_cases hp : m.any (fun x => decide (x.link = it.link)) = true
  · rw [if_pos hp]
    rw [links_map_eq]
    · rcases List.any_eq_true.mp hp with ⟨x, hx, hx2⟩
      simp only [decide_eq_true_eq] at hx2
      exact (mem_links_iff m it.link).mpr ⟨x, hx, hx2⟩
    · intro x
      by_cases hx : x.link = it.link <;> simp [hx]
  · rw [if_neg hp]
    unfold links
    rw [List.map_append]
    apply List.mem_append_right
    simp

lemma mem_links_foldl_mapInsert (rest : List Item) (acc : List Item)
    (l : String) (hl : l ∈ links acc) :
    l ∈ links (rest.foldl mapInsert acc) := by
  induction rest generalizing acc with
  | nil => exact hl
  | cons a rest ih =>
    rw [List.foldl_cons]
    exact ih (mapInsert acc a) (mem_links_mapInsert_old acc a l hl)

lemma mem_links_foldl_mapInsert_of_mem (rest : List Item) (acc : List Item)
    (x : Item) (hx : x ∈ rest) :
    x.link ∈ links (rest.foldl mapInsert acc) := by
  induction rest generalizing acc with
  | nil => cases hx
  | cons a rest ih =>
    rw [List.foldl_cons]
    rcases List.mem_cons.mp hx with rfl | hx'
    · exact mem_links_foldl_mapInsert rest (mapInsert acc x) x.link
        (mem_links_mapInsert_self acc x)
    · exact ih (mapInsert acc a) hx'

lemma mem_links_buildMap (existing : List Item) (l : String)
    (hl : l ∈ links existing) : l ∈ links (buildMap existing) := by
  rcases (mem_links_iff existing l).mp hl with ⟨x, hx, hxl⟩
  subst hxl
  exact mem_links_foldl_mapInsert_of_mem existing [] x hx

/-! ### Uniqueness of links -/

lemma nodup_links_mapInsert (m : List Item) (it : Item)
    (h : (links m).Nodup) : (links (mapInsert m it)).Nodup := by
  unfold mapInsert
  by_cases hp : m.any (fun x => decide (x.link = it.link)) = true
  · rw [if_pos hp, links_map_eq]
    · exact h
    · intro x
      by_cases hx : x.link = it.link <;> simp [hx]
  · rw [if_neg hp]
    unfold links at h ⊢
    rw [List.map_append, List.nodup_append]
    refine ⟨h, List.nodup_singleton _, ?_⟩
    intro a ha hb
    simp only [List.map_cons, List.map_nil, List.mem_singleton] at hb
    subst hb
    rcases List.mem_map.mp ha with ⟨x, hx, hxl⟩
    exact hp (List.any_eq_true.mpr ⟨x, hx, by simp [hxl]⟩)

lemma nodup_links_foldl_mapInsert (rest : List Item) (acc : List Item)
    (h : (links acc).Nodup) : (links (rest.foldl mapInsert acc)).Nodup := by
  induction rest generalizing acc with
  | nil => exact h
  | cons a rest ih =>
    rw [List.foldl_cons]
    exact ih (mapInsert acc a) (nodup_links_mapInsert acc a h)

lemma nodup_links_buildMap (existing : List Item) :
    (links (buildMap existing)).Nodup :=
  nodup_links_foldl_mapInsert existing [] List.nodup_nil

lemma nodup_links_processEntry (oracle : Oracle) (now : ℚ) (st : RunState)
    (e : Entry) (h : (links st.items).Nodup) :
    (links (processEntry oracle now st e).items).Nodup := by
  rcases processEntry_cases oracle now st e with ⟨-, hs⟩ |
    ⟨hf, -, it, hit, hitems, -⟩ | ⟨-, hlk, -⟩
  · rw [hs]; exact h
  · rw [hitems]
    unfold links at h ⊢
    rw [List.map_append, List.nodup_append]
    refine ⟨h, List.nodup_singleton _, ?_⟩
    intro a ha hb
    simp only [List.map_cons, List.map_nil, List.mem_singleton] at hb
    subst hb
    rw [hit] at ha
    exact (findItem_eq_none_iff st.items e.link).mp hf ha
  · rw [hlk]; exact h

lemma nodup_links_foldl (oracle : Oracle) (now : ℚ) (es : List Entry)
    (st : RunState) (h : (links st.items).Nodup) :
    (links ((es.foldl (processEntry oracle now) st).items)).Nodup := by
  induction es generalizing st with
  | nil => exact h
  | cons a es ih =>
    rw [List.foldl_cons]
    exact ih (processEntry oracle now st a)
      (nodup_links_processEntry oracle now st a h)

lemma nodup_links_runEngine (oracle : Oracle) (feeds : List Feed)
    (existing : List Item) (daysLimit now : ℚ) (startId : ℕ) :
    (links (runEngine oracle feeds existing daysLimit now startId).items).Nodup := by
  unfold runEngine
  exact nodup_links_foldl oracle now (filterEntries now daysLimit feeds)
    ⟨buildMap existing, 0, 0, startId⟩ (nodup_links_buildMap existing)

lemma mem_upd_self (m : List Item) (cur : Item) (l t s : String) (d : ℤ)
    (ts : ℚ) (hc : cur ∈ m) (hl : cur.link = l) :
    ∃ it ∈ updStamp (updContent m l t s) l d ts,
      it.link = l ∧ it.title = t ∧ it.summary = s := by
  unfold updContent updStamp
  refine ⟨_, List.mem_map_of_mem _ (List.mem_map_of_mem _ hc), ?_⟩
  simp [hl]

/-! ### The claims -/

/-- C7: an entry published exactly at `now - days_limit` days is retained by
the recency filter; one published one second earlier is dropped; an entry
with no published/updated time is never dropped by this filter. -/
theorem recency_filter_boundary (now daysLimit : ℚ) (e : Entry)
    (hl : e.link ≠ "") :
    (e.published = some (now - daysLimit * (24 * 3600)) →
      keepEntry now daysLimit e = true) ∧
    (e.published = some (now - daysLimit * (24 * 3600) - 1) →
      keepEntry now daysLimit e = false) ∧
    (e.published = none → keepEntry now daysLimit e = true) := by
  refine ⟨fun hp => ?_, fun hp => ?_, fun hp => ?_⟩
  · have harith : (now - (now - daysLimit * (24 * 3600))) / (24 * 3600)
        = daysLimit := by
      field_simp
    simp [keepEntry, hp, hl, harith]
  · have harith : (now - (now - daysLimit * (24 * 3600) - 1)) / (24 * 3600)
        = daysLimit + 1 / (24 * 3600) := by
      field_simp
      ring
    simp [keepEntry, hp, hl, harith]
  · simp [keepEntry, hp, hl]

/-- Witness for `recency_filter_boundary` at `now = 0`, `days_limit = 7`. -/
theorem recency_filter_boundary_witness :
    keepEntry 0 7 ⟨"L", "t", some (0 - 7 * (24 * 3600)), "body", "u"⟩ = true ∧
    keepEntry 0 7 ⟨"L", "t", some (0 - 7 * (24 * 3600) - 1), "body", "u"⟩
      = false ∧
    keepEntry 0 7 ⟨"L", "t", none, "body", "u"⟩ = true :=
  ⟨(recency_filter_boundary 0 7 _ (by decide)).1 rfl,
   (recency_filter_boundary 0 7 _ (by decide)).2.1 rfl,
   (recency_filter_boundary 0 7 _ (by decide)).2.2 rfl⟩

/-- C10: when the content string that reaches the JSON-decoding step is
non-empty but fails to parse, `process_article_content` returns the
original title unchanged and the raw response text as the summary. -/
theorem malformed_json_returns_raw (origTitle content : String)
    (parse : String → Option JsonObj)
    (hne : content ≠ "") (hparse : parse content = none) :
    contentToResult origTitle content parse = (some origTitle, some content) := by
  simp [contentToResult, hne, hparse]

/-- Witness for `malformed_json_returns_raw` on a concrete non-JSON reply. -/
theorem malformed_json_returns_raw_witness :
    contentToResult "Breaking news" "not a json object" (fun _ => none) =
      (some "Breaking news", some "not a json object") :=
  malformed_json_returns_raw "Breaking news" "not a json object"
    (fun _ => none) (by decide) rfl

/-- C3 counterexample: the summary `"1"` begins with a non-letter ASCII
character and contains no error marker, so the claimed predicate does not
select it, yet the code reprocesses it. -/
theorem reprocess_claim_counterexample :
    reprocessNeeded "1" = true ∧ reprocessClaimed "1" = false := by decide

/-- C3 (amended): an existing article is selected for reprocessing iff its
summary is empty or whitespace-only, or starts with `"Error"`, or contains
`"Error using AI model"`, or begins with any ASCII character while not
containing `"Error"` anywhere. -/
theorem reprocess_heuristic_characterization (s : String) :
    reprocessNeeded s = reprocessAmended s := by
  by_cases h : s = ""
  · subst h; decide
  · simp [reprocessNeeded, reprocessAmended, h]

/-- C2 counterexample: a due run whose pipeline raises (the failure is
caught) leaves `last_auto_scrape` at its previous value `0`, not at the
completion instant `200`. -/
theorem failed_run_keeps_last_auto_scrape :
    schedulerStep true 60 ⟨0⟩ 100 200 (Except.error "boom") =
      (⟨0⟩, some LogStatus.error) ∧ (0 : ℚ) ≠ 200 := by
  constructor
  · decide
  · norm_num

/-- C2 (amended): for a due iteration, a successful run persists
`last_auto_scrape = now()` at completion and status `idle`; a caught
failure persists only the `error` status and leaves the stats — including
`last_auto_scrape` — unchanged. -/
theorem scheduler_persists_only_on_success (enableAuto : Bool)
    (intervalSec : ℚ) (stats : Stats) (nowCheck nowEnd : ℚ)
    (pipeline : Except String (List Item × ℕ))
    (hdue : enableAuto = true ∧ nowCheck - stats.lastAutoScrape > intervalSec) :
    (∀ r, pipeline = Except.ok r →
      schedulerStep enableAuto intervalSec stats nowCheck nowEnd pipeline =
        (⟨nowEnd⟩, some LogStatus.idle)) ∧
    (∀ msg, pipeline = Except.error msg →
      schedulerStep enableAuto intervalSec stats nowCheck nowEnd pipeline =
        (stats, some LogStatus.error)) := by
  obtain ⟨ha, hd⟩ := hdue
  subst ha
  constructor <;> rintro x rfl <;> simp [schedulerStep, hd]

/-- Witness for `scheduler_persists_only_on_success`: a due, successful run
stamps `last_auto_scrape` with the completion instant. -/
theorem scheduler_persists_only_on_success_witness :
    schedulerStep true 60 ⟨0⟩ 100 200 (Except.ok ([], 0)) =
      (⟨200⟩, some LogStatus.idle) :=
  (scheduler_persists_only_on_success true 60 ⟨0⟩ 100 200 (Except.ok ([], 0))
    ⟨rfl, by norm_num⟩).1 ([], 0) rfl

/-- C1 counterexample: `englishArticle` (stored timestamp `5`) is selected
for reprocessing, the oracle reports the sighting irrelevant, and the feed
provides publication instant `0`; the run returns the article bit-for-bit
unchanged — the date/timestamp fields are *not* overwritten with the feed
time, contrary to the claim. -/
theorem irrelevant_existing_keeps_old_timestamp :
    process_news_data nullOracle longFeeds [englishArticle] 7 100 0 =
      ([englishArticle], 0) ∧
    reprocessNeeded englishArticle.summary = true ∧
    longEntry.published = some 0 ∧ englishArticle.timestamp = 5 ∧
    (5 : ℚ) ≠ 0 := by
  refine ⟨?_, by decide, rfl, rfl, by norm_num⟩
  have h : runEngine nullOracle longFeeds [englishArticle] 7 100 0 =
      ⟨[englishArticle], 0, 0, 0⟩ := by decide
  simp [process_news_data, h]

/-- C1 (amended): when the oracle returns the irrelevant outcome for an
existing article selected for reprocessing, the loop `continue`s — the
article keeps its title, summary *and* date/timestamp, and no counter
moves. -/
theorem irrelevant_existing_entry_skipped (oracle : Oracle) (now : ℚ)
    (st : RunState) (e : Entry) (cur : Item)
    (hf : findItem st.items e.link = some cur)
    (hb : reprocessNeeded cur.summary = true)
    (hlen : ¬ e.cleanText.length < 20)
    (hirr : oracle e.title (e.cleanText.take 4000) = none) :
    processEntry oracle now st e = st := by
  simp [processEntry, hf, hb, runProcess, hlen, hirr]

/-- Witness for `irrelevant_existing_entry_skipped` on the concrete state
holding `englishArticle`. -/
theorem irrelevant_existing_entry_skipped_witness :
    processEntry nullOracle 100 ⟨[englishArticle], 0, 0, 0⟩ longEntry =
      ⟨[englishArticle], 0, 0, 0⟩ :=
  irrelevant_existing_entry_skipped nullOracle 100 ⟨[englishArticle], 0, 0, 0⟩
    longEntry englishArticle (by decide) (by decide) (by decide) rfl

/-- C9: a candidate whose link is unknown and which the oracle classifies
as irrelevant contributes nothing: the loop state — collection, new-count,
update-count, and hence the total-changes value — is exactly as before the
entry. -/
theorem irrelevant_new_entry_dropped (oracle : Oracle) (now : ℚ)
    (st : RunState) (e : Entry)
    (hf : findItem st.items e.link = none)
    (hlen : ¬ e.cleanText.length < 20)
    (hirr : oracle e.title (e.cleanText.take 4000) = none) :
    processEntry oracle now st e = st := by
  simp [processEntry, hf, runProcess, hlen, hirr]

/-- Witness for `irrelevant_new_entry_dropped` on the empty collection. -/
theorem irrelevant_new_entry_dropped_witness :
    processEntry nullOracle 0 ⟨[], 0, 0, 0⟩ longEntry = ⟨[], 0, 0, 0⟩ :=
  irrelevant_new_entry_dropped nullOracle 0 ⟨[], 0, 0, 0⟩ longEntry rfl
    (by decide) rfl

/-- C8: for a selected entry whose clean text is shorter than 20 characters
the oracle is never consulted (the step result does not depend on the
oracle at all), and the stored article carries the entry's original title
and the fixed placeholder summary. -/
theorem short_content_short_circuit (o1 o2 : Oracle) (now : ℚ)
    (st : RunState) (e : Entry)
    (hsel : findItem st.items e.link = none ∨
      ∃ cur, findItem st.items e.link = some cur ∧
        reprocessNeeded cur.summary = true)
    (hlen : e.cleanText.length < 20) :
    processEntry o1 now st e = processEntry o2 now st e ∧
    ∃ it ∈ (processEntry o1 now st e).items,
      it.link = e.link ∧ it.title = e.title ∧
      it.summary = "Content too short to summarize." := by
  have hrp : ∀ o : Oracle,
      runProcess o e = some (e.title, "Content too short to summarize.") := by
    intro o
    simp [runProcess, hlen]
  rcases hsel with hf | ⟨cur, hf, hb⟩
  · refine ⟨by simp [processEntry, hf, hrp], ?_⟩
    refine ⟨{ id := st.nextId, date := (entryStamp now e).1,
              timestamp := (entryStamp now e).2, title := e.title,
              source := e.sourceUrl,
              summary := "Content too short to summarize.",
              link := e.link }, ?_, rfl, rfl, rfl⟩
    simp [processEntry, hf, hrp]
  · refine ⟨by simp [processEntry, hf, hb, hrp], ?_⟩
    have hcl : cur.link = e.link := by
      simpa using List.find?_some hf
    have hcm : cur ∈ st.items := List.mem_of_find?_eq_some hf
    rcases mem_upd_self st.items cur e.link e.title
        "Content too short to summarize." (entryStamp now e).1
        (entryStamp now e).2 hcm hcl with ⟨it, hmem, h1, h2, h3⟩
    refine ⟨it, ?_, h1, h2, h3⟩
    simp [processEntry, hf, hb, hrp]
    exact hmem

/-- Witness for `short_content_short_circuit`: two different oracles, same
result, and the placeholder is stored. -/
theorem short_content_short_circuit_witness :
    processEntry nullOracle 0 ⟨[], 0, 0, 5⟩ shortEntry =
      processEntry constOracle 0 ⟨[], 0, 0, 5⟩ shortEntry ∧
    ∃ it ∈ (processEntry nullOracle 0 ⟨[], 0, 0, 5⟩ shortEntry).items,
      it.link = shortEntry.link ∧ it.title = shortEntry.title ∧
      it.summary = "Content too short to summarize." :=
  short_content_short_circuit nullOracle constOracle 0 ⟨[], 0, 0, 5⟩
    shortEntry (Or.inl rfl) (by decide)

/-- C5: the collection returned by `process_news_data` is sorted by the
timestamp field in descending order. -/
theorem output_sorted_by_timestamp_desc (oracle : Oracle) (feeds : List Feed)
    (existing : List Item) (daysLimit now : ℚ) (startId : ℕ) :
    (process_news_data oracle feeds existing daysLimit now startId).1.Pairwise
      (fun a b => b.timestamp ≤ a.timestamp) := by
  have h := @List.sorted_mergeSort Item
    (fun a b => decide (b.timestamp ≤ a.timestamp))
    (fun a b c hab hbc => by
      simp only [decide_eq_true_eq] at hab hbc ⊢
      exact le_trans hbc hab)
    (fun a b => by
      simp only [Bool.or_eq_true, decide_eq_true_eq]
      exact le_total b.timestamp a.timestamp)
    (runEngine oracle feeds existing daysLimit now startId).items
  exact h.imp fun hab => of_decide_eq_true hab

/-- C6: no two articles in the returned collection share a link. -/
theorem output_links_unique (oracle : Oracle) (feeds : List Feed)
    (existing : List Item) (daysLimit now : ℚ) (startId : ℕ) :
    (process_news_data oracle feeds existing daysLimit now startId).1.Pairwise
      (fun a b => a.link ≠ b.link) := by
  have h1 := nodup_links_runEngine oracle feeds existing daysLimit now startId
  have hperm := List.mergeSort_perm
    (runEngine oracle feeds existing daysLimit now startId).items
    (fun a b => decide (b.timestamp ≤ a.timestamp))
  have h2 : (links ((runEngine oracle feeds existing daysLimit now
      startId).items.mergeSort
      (fun a b => decide (b.timestamp ≤ a.timestamp)))).Nodup :=
    ((hperm.map Item.link).nodup_iff).mpr h1
  exact List.pairwise_map.mp h2

/-- C4 counterexample: ingest `shortEntry` into the empty collection, then
feed the identical candidate set (and oracle) straight back in. The second
run has new-count `0` but update-count `1`, although the only article's
timestamp (`10`) equals the feed-provided value throughout — the placeholder
summary starts with an ASCII character, so the article is reprocessed and
counted regardless of any timestamp difference. -/
theorem reingestion_update_count_counterexample :
    process_news_data nullOracle shortFeeds [] 7 10 0 = ([shortItem], 1) ∧
    (runEngine nullOracle shortFeeds [shortItem] 7 10 1).newCount = 0 ∧
    (runEngine nullOracle shortFeeds [shortItem] 7 10 1).updCount = 1 ∧
    shortItem.timestamp = 10 ∧ shortEntry.published = some 10 := by
  refine ⟨?_, by decide, by decide, rfl, rfl⟩
  have h : runEngine nullOracle shortFeeds [] 7 10 0 = ⟨[shortItem], 1, 0, 1⟩ := by
    decide
  simp [process_news_data, h]

/-- C4 (amended): feeding the output of one run straight back in with the
same feeds, oracle, horizon and clock yields a second run that creates no
new articles (its update-count, however, may be positive even when no
timestamp changed, because stored summaries can still match the reprocess
heuristic). -/
theorem second_run_new_count_zero (oracle : Oracle) (feeds : List Feed)
    (existing : List Item) (daysLimit now : ℚ) (sid1 sid2 : ℕ) :
    (runEngine oracle feeds
      (process_news_data oracle feeds existing daysLimit now sid1).1
      daysLimit now sid2).newCount = 0 := by
  unfold runEngine
  apply newCount_foldl_of_resolved
  intro e he
  rcases coverage_foldl oracle now (filterEntries now daysLimit feeds)
      ⟨buildMap existing, 0, 0, sid1⟩ e he with hl | hr
  · left
    apply mem_links_buildMap
    show e.link ∈ links
      ((runEngine oracle feeds existing daysLimit now sid1).items.mergeSort
        (fun a b => decide (b.timestamp ≤ a.timestamp)))
    unfold links at hl ⊢
    rcases List.mem_map.mp hl with ⟨x, hx, hxl⟩
    exact List.mem_map.mpr ⟨x, List.mem_mergeSort.mpr hx, hxl⟩
  · right
    exact hr
